import Mathlib

/-!
Verification of the `nod` disc-image reader: a shallow embedding of the
FST (file system table) view from `src/nod/src/fst.rs` and the NKit
sidecar header from `src/nod/src/io/nkit.rs`, with theorems settling the
specification claims about them.

Bytes are modelled as `Nat` (each in `0..256` where it matters), byte
streams as `List Nat`, and fallible reads as `Except ReadErr`.
-/

deriving instance DecidableEq for Except

namespace Nod

/-- Errors produced by the embedded reader operations.
`ioError` models a Rust `io::Error` returned to the caller; `overflow`
models a checked (debug-build) integer-subtraction overflow panic;
`divZero` models a division-by-zero panic. -/
inductive ReadErr where
  | ioError : String → ReadErr
  | overflow : ReadErr
  | divZero : ReadErr
deriving DecidableEq, Repr

/-- Read exactly `n` bytes from a stream, returning the bytes read and the
rest of the stream. Models `Read::read_exact` on an in-memory reader: an
`UnexpectedEof` I/O error when fewer than `n` bytes remain. -/
def readBytes (n : Nat) (s : List Nat) : Except ReadErr (List Nat × List Nat) :=
  if n ≤ s.length then .ok (s.take n, s.drop n) else .error (.ioError ("unexpected EOF"))

/-- Big-endian interpretation of a byte list. -/
def beNat (l : List Nat) : Nat := l.foldl (fun a b => a * 256 + b) 0

/-- Read an `n`-byte big-endian integer. Models `read_u16_be` / `read_u32_be`
/ `read_u64_be` from `util::read` (declared outside `src/`; modelled from the
spec: all multi-byte integers are big-endian). -/
def readBE (n : Nat) (s : List Nat) : Except ReadErr (Nat × List Nat) :=
  match readBytes n s with
  | .error e => .error e
  | .ok (bs, s') => .ok (beNat bs, s')

/-- Ceiling division, as Rust's `u64::div_ceil` (caller must rule out a zero
divisor, which panics in Rust). -/
def divCeil (a b : Nat) : Nat := (a + b - 1) / b

/-- Modelled from the spec: `DL_DVD_SIZE` is defined in `src/nod/src/disc`
(not included under `src/`); per spec section 4.2 it is the dual-layer DVD
capacity in bytes (8.5 GB). -/
def DL_DVD_SIZE : Nat := 8511160320

/-- The `NKitHeaderFlags` bits from `src/nod/src/io/nkit.rs`. -/
def FLAG_SIZE : Nat := 0x1
def FLAG_CRC32 : Nat := 0x2
def FLAG_MD5 : Nat := 0x4
def FLAG_SHA1 : Nat := 0x8
def FLAG_XXHASH64 : Nat := 0x10
def FLAG_KEY : Nat := 0x20

/-- `NKIT_HEADER_V1_FLAGS`: the fixed flag set of version-1 headers. -/
def NKIT_HEADER_V1_FLAGS : Nat := FLAG_CRC32 + FLAG_MD5 + FLAG_SHA1 + FLAG_XXHASH64

/-- `calc_header_size` from `src/nod/src/io/nkit.rs`. -/
def calc_header_size (version flags key_len : Nat) : Nat :=
  8 + (if 2 ≤ version then 4 else 0)
    + (if flags.land FLAG_SIZE ≠ 0 then 8 else 0)
    + (if flags.land FLAG_CRC32 ≠ 0 then 4 else 0)
    + (if flags.land FLAG_MD5 ≠ 0 then 16 else 0)
    + (if flags.land FLAG_SHA1 ≠ 0 then 20 else 0)
    + (if flags.land FLAG_XXHASH64 ≠ 0 then 8 else 0)
    + (if flags.land FLAG_KEY ≠ 0 then key_len + 2 else 0)

/-- The bytes of the ASCII string `"NKIT  v"` (`VERSION_PREFIX` in
`src/nod/src/io/nkit.rs`). -/
def VERSION_MAGIC : List Nat := [78, 75, 73, 84, 32, 32, 118]

/-- `NKitHeader` from `src/nod/src/io/nkit.rs`. Digest byte arrays are byte
lists, integers are `Nat`. -/
structure NKitHeader where
  version : Nat
  flags : Nat
  size : Option Nat
  crc32 : Option Nat
  md5 : Option (List Nat)
  sha1 : Option (List Nat)
  xxhash64 : Option Nat
  junk_bits : Option (List Nat)
  block_size : Nat
deriving DecidableEq, Repr

/-- The version-string stage of `NKitHeader::read_from`: read 8 bytes, check
the `"NKIT  v"` magic and that the version digit is in `'1'..='9'`, and
return the numeric version. (`readBytes 8` always yields an 8-byte list on
success, so the final catch-all arm is unreachable.) -/
def readVersion (stream : List Nat) : Except ReadErr (Nat × List Nat) :=
  match readBytes 8 stream with
  | .error e => .error e
  | .ok ([a, b, c, d, e, f, g, x], s1) =>
    if [a, b, c, d, e, f, g] = VERSION_MAGIC ∧ 49 ≤ x ∧ x ≤ 57 then
      .ok (x - 48, s1)
    else .error (.ioError ("Invalid NKit header version string"))
  | .ok (_, _) => .error (.ioError ("Invalid NKit header version string"))

/-- The header-size stage of `NKitHeader::read_from`: fixed for version 1,
read from the stream for version 2, unsupported otherwise. -/
def readHeaderSize (version : Nat) (s : List Nat) : Except ReadErr (Nat × List Nat) :=
  match version with
  | 1 => .ok (calc_header_size 1 NKIT_HEADER_V1_FLAGS 0, s)
  | 2 => readBE 2 s
  | v => .error (.ioError ("Unsupported NKit header version: " ++ toString v))

/-- The `remaining_header_size` computation of `NKitHeader::read_from`:
`header_size as usize - 8`, then `-= 2` when `version >= 2`. Both are
checked (debug-build) subtractions, modelled as `.overflow` on underflow. -/
def remainingHeaderSize (version header_size : Nat) : Except ReadErr Nat :=
  if header_size < 8 then .error .overflow
  else if 2 ≤ version then
    if header_size - 8 < 2 then .error .overflow else .ok (header_size - 8 - 2)
  else .ok (header_size - 8)

/-- Read an optional `n`-byte big-endian integer from the inner header
cursor when the given flag bit is set (the `.then(..).transpose()?` pattern
in `NKitHeader::read_from`). -/
def readOptBE (cond : Bool) (n : Nat) (s : List Nat) :
    Except ReadErr (Option Nat × List Nat) :=
  if cond then
    match readBE n s with
    | .error e => .error e
    | .ok (v, s') => .ok (some v, s')
  else .ok (none, s)

/-- Read an optional `n`-byte array from the inner header cursor when the
given flag bit is set. -/
def readOptBytes (cond : Bool) (n : Nat) (s : List Nat) :
    Except ReadErr (Option (List Nat) × List Nat) :=
  if cond then
    match readBytes n s with
    | .error e => .error e
    | .ok (v, s') => .ok (some v, s')
  else .ok (none, s)

/-- The flag/digest-parsing stage of `NKitHeader::read_from`, reading from
the in-memory `header_bytes` cursor. -/
def parseInner (version : Nat) (hb : List Nat) :
    Except ReadErr (Nat × Option Nat × Option Nat × Option (List Nat) ×
      Option (List Nat) × Option Nat) := do
  let (flags, i0) ←
    if version = 1 then pure (NKIT_HEADER_V1_FLAGS, hb) else readBE 2 hb
  let (size, i1) ← readOptBE (flags.land FLAG_SIZE != 0) 8 i0
  let (crc32, i2) ← readOptBE (flags.land FLAG_CRC32 != 0) 4 i1
  let (md5, i3) ← readOptBytes (flags.land FLAG_MD5 != 0) 16 i2
  let (sha1, i4) ← readOptBytes (flags.land FLAG_SHA1 != 0) 20 i3
  let (xxhash64, _) ← readOptBE (flags.land FLAG_XXHASH64 != 0) 8 i4
  pure (flags, size, crc32, md5, sha1, xxhash64)

/-- The junk-bitmap stage of `NKitHeader::read_from`: when the container
declares junk bits, read `ceil(ceil(DL_DVD_SIZE / block_size) / 8)` bytes
from the reader (`u64::div_ceil` panics on a zero divisor). -/
def readJunkBits (has_junk_bits : Bool) (block_size : Nat) (s : List Nat) :
    Except ReadErr (Option (List Nat) × List Nat) :=
  match has_junk_bits with
  | false => .ok (none, s)
  | true =>
    if block_size = 0 then .error .divZero
    else
      match readBytes (divCeil (divCeil DL_DVD_SIZE block_size) 8) s with
      | .error e => .error e
      | .ok (v, s') => .ok (some v, s')

/-- `NKitHeader::read_from` from `src/nod/src/io/nkit.rs`, over an in-memory
byte stream. -/
def NKitHeader.read_from (stream : List Nat) (block_size : Nat)
    (has_junk_bits : Bool) : Except ReadErr NKitHeader := do
  let (version, s1) ← readVersion stream
  let (header_size, s2) ← readHeaderSize version s1
  let remaining ← remainingHeaderSize version header_size
  let (header_bytes, s3) ← readBytes remaining s2
  let (flags, size, crc32, md5, sha1, xxhash64) ← parseInner version header_bytes
  let (junk_bits, _) ← readJunkBits has_junk_bits block_size s3
  pure { version, flags, size, crc32, md5, sha1, xxhash64, junk_bits, block_size }

/-- `NKitHeader::is_junk_block` from `src/nod/src/io/nkit.rs`:
`junk_bits.get(block / 8).map(|b| b & (1 << (7 - (block & 7))) != 0)`. -/
def NKitHeader.is_junk_block (h : NKitHeader) (block : Nat) : Option Bool :=
  h.junk_bits.bind fun v =>
    (v.get? (block / 8)).map fun b => b &&& (1 <<< (7 - block % 8)) != 0

/-- Modelled from the spec: the `DiscMeta` struct is defined in
`src/nod/src/io` (module root, not included under `src/`); spec section 3
lists its fields. Only the fields read or written by `NKitHeader::apply`
are modelled. -/
structure DiscMeta where
  lossless : Bool
  needs_hash_recovery : Bool
  disc_size : Option Nat
  crc32 : Option Nat
  md5 : Option (List Nat)
  sha1 : Option (List Nat)
  xxhash64 : Option Nat
deriving DecidableEq, Repr

/-- `NKitHeader::apply` from `src/nod/src/io/nkit.rs`: `|=` into the two
flags, `disc_size.or(size)`, and plain assignment of the four digests. -/
def NKitHeader.apply (h : NKitHeader) (meta : DiscMeta) : DiscMeta :=
  { meta with
    needs_hash_recovery := meta.needs_hash_recovery || h.junk_bits.isSome,
    lossless := meta.lossless || (h.size.isSome && h.junk_bits.isSome),
    disc_size := match meta.disc_size with
      | some v => some v
      | none => h.size,
    crc32 := h.crc32,
    md5 := h.md5,
    sha1 := h.sha1,
    xxhash64 := h.xxhash64 }

/-- `NodeKind` from `src/nod/src/fst.rs`. -/
inductive NodeKind where
  | File
  | Directory
  | Invalid
deriving DecidableEq, Repr

/-- `Node` from `src/nod/src/fst.rs`: a 12-byte FST node. `kind` is the raw
kind byte, `name_offset` the 24-bit big-endian name offset already
assembled (as `Node::name_offset()` computes it), `offset` and `length` the
raw big-endian `u32` fields. -/
structure Node where
  kind : Nat
  name_offset : Nat
  offset : Nat
  length : Nat
deriving DecidableEq, Repr, Inhabited

/-- `Node::kind` from `src/nod/src/fst.rs`: byte 0 is a file, byte 1 a
directory, anything else invalid. -/
def Node.kindOf (n : Node) : NodeKind :=
  match n.kind with
  | 0 => NodeKind.File
  | 1 => NodeKind.Directory
  | _ => NodeKind.Invalid

/-- `Node::is_file`: `self.kind == 0`. -/
def Node.is_file (n : Node) : Bool := n.kind == 0

/-- `Node::is_dir`: `self.kind == 1`. -/
def Node.is_dir (n : Node) : Bool := n.kind == 1

/-- `Node::offset(is_wii)` from `src/nod/src/fst.rs`: for Wii file nodes the
stored `u32` is multiplied by 4 on read, otherwise returned unchanged.
(Name `offsetFor` because the raw field is already called `offset`.) -/
def Node.offsetFor (n : Node) (is_wii : Bool) : Nat :=
  if is_wii ∧ n.kind = 0 then n.offset * 4 else n.offset

/-- Big-endian `u32` at position `i` of a byte list. -/
def be32At (b : List Nat) (i : Nat) : Nat :=
  ((b.getD i 0 * 256 + b.getD (i + 1) 0) * 256 + b.getD (i + 2) 0) * 256
    + b.getD (i + 3) 0

/-- Decode one 12-byte FST node (zerocopy view of the `Node` struct:
kind byte, 3-byte big-endian name offset, big-endian `u32` offset and
length). -/
def parseNode (b : List Nat) : Node :=
  { kind := b.getD 0 0,
    name_offset := (b.getD 1 0) * 65536 + (b.getD 2 0) * 256 + b.getD 3 0,
    offset := be32At b 4,
    length := be32At b 8 }

/-- Decode `k` consecutive 12-byte nodes from a byte buffer (the
`Node::slice_from` view over the node region). -/
def parseNodesN : Nat → List Nat → List Node
  | 0, _ => []
  | k + 1, l => parseNode (l.take 12) :: parseNodesN k (l.drop 12)

/-- `Fst` from `src/nod/src/fst.rs`: a node list plus the string table. -/
structure Fst where
  nodes : List Node
  string_table : List Nat
deriving DecidableEq, Repr

/-- `Fst::new` from `src/nod/src/fst.rs`: the root node is the first
12 bytes; the node region is `root.length * 12` bytes, which must end
strictly before the end of the buffer; the rest is the string table. -/
def Fst.new (buf : List Nat) : Except String Fst :=
  if buf.length < 12 then .error ("FST root node not found")
  else if buf.length ≤ (parseNode (buf.take 12)).length * 12 then
    .error ("FST string table out of bounds")
  else
    .ok { nodes := parseNodesN (parseNode (buf.take 12)).length
            (buf.take ((parseNode (buf.take 12)).length * 12)),
          string_table := buf.drop ((parseNode (buf.take 12)).length * 12) }

/-- `CStr::from_bytes_until_nul(..).to_bytes()`: the bytes strictly before
the first NUL, or an error when the buffer holds no NUL. -/
def bytesUntilNul (l : List Nat) : Option (List Nat) :=
  if 0 ∈ l then some (l.takeWhile (fun b => b != 0)) else none

/-- `Fst::get_name` from `src/nod/src/fst.rs`, parameterized by the text
decoder (`encoding_rs::SHIFT_JIS.decode` in the source, an external crate):
`decode` returns the decoded characters and the `had_errors` flag. The
string table is sliced from the name offset (`slice::get(offset..)` is
`Some` exactly when `offset <= len`), scanned to the first NUL, and
decoded. -/
def Fst.get_name (decode : List Nat → List Char × Bool) (fst : Fst)
    (node : Node) : Except String (List Char) :=
  if node.name_offset ≤ fst.string_table.length then
    match bytesUntilNul (fst.string_table.drop node.name_offset) with
    | none =>
      .error ("FST: name at offset " ++ toString node.name_offset
        ++ " not null-terminated")
    | some bytes =>
      let (decoded, errors) := decode bytes
      if errors then
        .error ("FST: Failed to decode name at offset "
          ++ toString node.name_offset)
      else .ok decoded
  else
    .error ("FST: name offset " ++ toString node.name_offset
      ++ " out of bounds (string table size: "
      ++ toString fst.string_table.length ++ ")")

/-- Modelled from the spec: the Shift-JIS decoder is provided by the
external `encoding_rs` crate (not part of this repository). Single-byte
sequences follow the WHATWG Shift-JIS index: bytes `0x00..=0x80` decode to
the same code point, `0xA1..=0xDF` to halfwidth katakana
`0xFF61 + (b - 0xA1)`. Double-byte sequences (lead `0x81..=0x9F`,
`0xE0..=0xFC`) require the JIS X 0208 index table and are conservatively
modelled as decode errors emitting U+FFFD. The second component is the
`had_errors` flag. -/
def shiftJisDecode : List Nat → List Char × Bool
  | [] => ([], false)
  | b :: rest =>
    let (cs, e) := shiftJisDecode rest
    if b ≤ 0x80 then (Char.ofNat b :: cs, e)
    else if 0xA1 ≤ b ∧ b ≤ 0xDF then (Char.ofNat (0xFF61 + (b - 0xA1)) :: cs, e)
    else (Char.ofNat 0xFFFD :: cs, true)

/-- One item of the FST iterator: index, node, and the name-decoding
result. -/
abbrev FstItem := Nat × Node × Except String (List Char)

/-- The sequence of items produced by `FstIter::next` starting at `idx`,
with explicit fuel (the Rust iterator stops exactly when
`nodes.get(idx)` fails, and `idx` only increments). -/
def iterFromFuel (decode : List Nat → List Char × Bool) (fst : Fst) :
    Nat → Nat → List FstItem
  | 0, _ => []
  | fuel + 1, idx =>
    match fst.nodes.get? idx with
    | none => []
    | some node =>
      (idx, node, Fst.get_name decode fst node)
        :: iterFromFuel decode fst fuel (idx + 1)

/-- `Fst::iter` from `src/nod/src/fst.rs`, as the full list of items the
iterator yields: `FstIter { idx: 1 }` run to exhaustion (`nodes.length`
steps of fuel over-approximate the at most `nodes.length - 1` items). -/
def Fst.iterItems (decode : List Nat → List Char × Bool) (fst : Fst) :
    List FstItem :=
  iterFromFuel decode fst fst.nodes.length 1

/-- `char::to_ascii_lowercase`. -/
def asciiLower (c : Char) : Char :=
  if 'A' ≤ c ∧ c ≤ 'Z' then Char.ofNat (c.toNat + 32) else c

/-- `str::eq_ignore_ascii_case`. -/
def eqIgnoreAsciiCase : List Char → List Char → Bool
  | [], [] => true
  | a :: as_, b :: bs => (asciiLower a == asciiLower b) && eqIgnoreAsciiCase as_ bs
  | _, _ => false

/-- `str::trim_matches(c)`: strip all leading and trailing occurrences of
`c`. -/
def trimMatches (c : Char) (s : List Char) : List Char :=
  ((s.dropWhile (fun x => x == c)).reverse.dropWhile (fun x => x == c)).reverse

/-- `str::split(sep)`: splits into `n + 1` pieces for `n` separators,
keeping empty pieces (`split` of the empty string yields one empty
piece). -/
def splitChar (sep : Char) : List Char → List (List Char)
  | [] => [[]]
  | c :: rest =>
    let r := splitChar sep rest
    if c == sep then [] :: r
    else
      match r with
      | [] => [[c]]
      | h :: t => (c :: h) :: t

/-- The matched-name test in `Fst::find`:
`get_name(node).map_or(false, |name| name.eq_ignore_ascii_case(current))`. -/
def nameMatches (decode : List Nat → List Char × Bool) (fst : Fst)
    (node : Node) (current : List Char) : Bool :=
  match Fst.get_name decode fst node with
  | .ok name => eqIgnoreAsciiCase name current
  | .error _ => false

/-- The `while let Some(node) = self.nodes.get(idx)` loop of `Fst::find`,
with explicit fuel (the Rust loop can revisit indices on malformed input,
so it is not structurally terminating). Returns `none` when fuel runs out
(divergence), otherwise `some` of the loop's result. -/
def findLoop (decode : List Nat → List Char × Bool) (fst : Fst) :
    Nat → List (List Char) → List Char → Nat → Option Nat →
    Option (Option (Nat × Node))
  | 0, _, _, _, _ => none
  | fuel + 1, segs, current, idx, stop_at =>
    match fst.nodes.get? idx with
    | none => some none
    | some node =>
      if nameMatches decode fst node current then
        match segs with
        | [] => some (some (idx, node))
        | next :: rest =>
          let idx' := idx + 1
          let stop' := some (node.length + idx')
          if node.length + idx' ≤ idx' then some none
          else findLoop decode fst fuel rest next idx' stop'
      else if node.is_dir then
        match stop_at with
        | some stop =>
          if stop ≤ node.length then some none
          else findLoop decode fst fuel segs current node.length stop_at
        | none => findLoop decode fst fuel segs current node.length stop_at
      else
        match stop_at with
        | some stop =>
          if stop ≤ idx + 1 then some none
          else findLoop decode fst fuel segs current (idx + 1) stop_at
        | none => findLoop decode fst fuel segs current (idx + 1) stop_at

/-- `Fst::find` from `src/nod/src/fst.rs`, with explicit loop fuel:
trim `'/'` from both ends, split on `'/'`, and run the scan loop from
index 1 with no stop bound. -/
def Fst.find (decode : List Nat → List Char × Bool) (fst : Fst) (fuel : Nat)
    (path : List Char) : Option (Option (Nat × Node)) :=
  match splitChar '/' (trimMatches '/' path) with
  | [] => some none
  | current :: segs => findLoop decode fst fuel segs current 1 none

/-! ## Concrete test fixtures -/

/-- A version-2 NKit header stream with declared header size 12 and an
empty flag set: `"NKIT  v2"`, size `0x000C`, flags `0x0000`. -/
def nkitStreamEmptyV2 : List Nat := [78, 75, 73, 84, 32, 32, 118, 50, 0, 12, 0, 0]

/-- The header `nkitStreamEmptyV2` parses to: version 2, no flags, no
digests, no junk bitmap. -/
def nkitHeaderEmptyV2 : NKitHeader :=
  { version := 2, flags := 0, size := none, crc32 := none, md5 := none,
    sha1 := none, xxhash64 := none, junk_bits := none, block_size := 32768 }

/-- A `DiscMeta` holding pre-existing digests and set flags, to observe
what `NKitHeader::apply` overwrites. -/
def metaWithDigests : DiscMeta :=
  { lossless := true, needs_hash_recovery := true, disc_size := some 10,
    crc32 := some 1, md5 := some [2], sha1 := some [3], xxhash64 := some 4 }

/-- An FST with root (5 nodes), directory `a` (index 1, subtree end 3)
containing file `x` (index 2), and directory `b` (index 3, subtree end 5)
containing file `y` (index 4). String table: `"a\0x\0b\0y\0"`. -/
def fstAB : Fst :=
  { nodes := [
      { kind := 1, name_offset := 0, offset := 0, length := 5 },
      { kind := 1, name_offset := 0, offset := 0, length := 3 },
      { kind := 0, name_offset := 2, offset := 0, length := 0 },
      { kind := 1, name_offset := 4, offset := 0, length := 5 },
      { kind := 0, name_offset := 6, offset := 0, length := 0 }],
    string_table := [97, 0, 120, 0, 98, 0, 121, 0] }

/-! ## Claim theorems -/

/-- C7: `Node::offset` with `is_wii = true` returns 4 times the stored
big-endian `u32` offset when the node is a file (kind byte 0) and the
stored `u32` unchanged for every other kind (in particular directories);
with `is_wii = false` it returns the stored `u32` unchanged for every
node kind. -/
theorem C7_node_offset (n : Node) :
    n.offsetFor true = (if n.kind = 0 then 4 * n.offset else n.offset) ∧
    n.offsetFor false = n.offset := by
  refine ⟨?_, ?_⟩
  · by_cases h : n.kind = 0 <;> simp [Node.offsetFor, h, Nat.mul_comm]
  · simp [Node.offsetFor]

/-- C10: for every FST node whose kind byte is neither 0 nor 1,
`Node::kind()` returns `NodeKind::Invalid` and both `is_file()` and
`is_dir()` return `false`. -/
theorem C10_invalid_kind (n : Node) (h0 : n.kind ≠ 0) (h1 : n.kind ≠ 1) :
    n.kindOf = NodeKind.Invalid ∧ n.is_file = false ∧ n.is_dir = false := by
  obtain ⟨m, hm⟩ : ∃ m, n.kind = m + 2 := ⟨n.kind - 2, by omega⟩
  refine ⟨?_, ?_, ?_⟩ <;> simp [Node.kindOf, Node.is_file, Node.is_dir, hm]

/-- Witness for C10 at the concrete kind byte 2. -/
theorem C10_witness :
    Node.kindOf { kind := 2, name_offset := 0, offset := 0, length := 0 }
        = NodeKind.Invalid ∧
    Node.is_file { kind := 2, name_offset := 0, offset := 0, length := 0 } = false ∧
    Node.is_dir { kind := 2, name_offset := 0, offset := 0, length := 0 } = false :=
  C10_invalid_kind { kind := 2, name_offset := 0, offset := 0, length := 0 }
    (by decide) (by decide)

/-- C2 counterexample: `nkitStreamEmptyV2` parses to a header carrying no
digests; applying it to a `DiscMeta` whose `crc32`/`md5`/`sha1`/`xxhash64`
are all set clears every one of them to `None`, so the pre-existing values
are not left unchanged as the claim states. -/
theorem C2_counterexample :
    NKitHeader.read_from nkitStreamEmptyV2 32768 false = .ok nkitHeaderEmptyV2 ∧
    nkitHeaderEmptyV2.crc32 = none ∧ nkitHeaderEmptyV2.md5 = none ∧
    nkitHeaderEmptyV2.sha1 = none ∧ nkitHeaderEmptyV2.xxhash64 = none ∧
    metaWithDigests.crc32 = some 1 ∧
    ¬((nkitHeaderEmptyV2.apply metaWithDigests).crc32 = some 1) ∧
    ¬((nkitHeaderEmptyV2.apply metaWithDigests).md5 = some [2]) ∧
    ¬((nkitHeaderEmptyV2.apply metaWithDigests).sha1 = some [3]) ∧
    ¬((nkitHeaderEmptyV2.apply metaWithDigests).xxhash64 = some 4) := by
  decide

/-- C2 (amended): `NKitHeader::apply` assigns `h`'s optional digest values
into `meta` unconditionally: each of `crc32`, `md5`, `sha1`, `xxhash64`
becomes exactly `h`'s value, so a digest the header does not carry clears
the corresponding field to `None`. -/
theorem C2_apply_digests_unconditional (m : DiscMeta) (h : NKitHeader) :
    (h.apply m).crc32 = h.crc32 ∧ (h.apply m).md5 = h.md5 ∧
    (h.apply m).sha1 = h.sha1 ∧ (h.apply m).xxhash64 = h.xxhash64 := by
  simp [NKitHeader.apply]

/-- C3 counterexample: applying a parsed header with neither `size` nor
`junk_bits` to a `DiscMeta` whose `lossless` and `needs_hash_recovery` are
already `true` leaves both `true`, so neither flag equals the claimed
"iff the header carries the fields, regardless of prior value". -/
theorem C3_counterexample :
    NKitHeader.read_from nkitStreamEmptyV2 32768 false = .ok nkitHeaderEmptyV2 ∧
    nkitHeaderEmptyV2.size = none ∧ nkitHeaderEmptyV2.junk_bits = none ∧
    metaWithDigests.lossless = true ∧ metaWithDigests.needs_hash_recovery = true ∧
    ¬((nkitHeaderEmptyV2.apply metaWithDigests).lossless = true ↔
        (nkitHeaderEmptyV2.size.isSome = true ∧
          nkitHeaderEmptyV2.junk_bits.isSome = true)) ∧
    ¬((nkitHeaderEmptyV2.apply metaWithDigests).needs_hash_recovery = true ↔
        nkitHeaderEmptyV2.junk_bits.isSome = true) := by
  decide

/-- C3 (amended): after `NKitHeader::apply`, `lossless` is the OR of its
prior value with "\x7bsize and junk bitmap both present\x7d",
`needs_hash_recovery` is the OR of its prior value with "junk bitmap
present", and `disc_size` keeps its prior value when set, otherwise takes
the header's size. -/
theorem C3_apply_flags_accumulate (m : DiscMeta) (h : NKitHeader) :
    (h.apply m).lossless = (m.lossless || (h.size.isSome && h.junk_bits.isSome)) ∧
    (h.apply m).needs_hash_recovery
        = (m.needs_hash_recovery || h.junk_bits.isSome) ∧
    (h.apply m).disc_size
        = (if m.disc_size.isSome then m.disc_size else h.size) := by
  refine ⟨rfl, rfl, ?_⟩
  rcases hd : m.disc_size <;> simp [NKitHeader.apply, hd]

/-- C4: a version-2 NKit header whose magic and version string are
well-formed but whose declared 16-bit header size is 9 (less than 10)
makes the `usize` computation `header_size - 8 - 2` underflow; in a debug
build this is a subtraction-overflow panic (modelled as
`ReadErr.overflow`), not an `io::Error` returned to the caller. -/
theorem C4_header_size_underflow :
    NKitHeader.read_from [78, 75, 73, 84, 32, 32, 118, 50, 0, 9, 0, 0, 0, 0]
        32768 false = .error ReadErr.overflow ∧
    ∀ msg, NKitHeader.read_from [78, 75, 73, 84, 32, 32, 118, 50, 0, 9, 0, 0, 0, 0]
        32768 false ≠ .error (.ioError msg) := by
  have heq : NKitHeader.read_from [78, 75, 73, 84, 32, 32, 118, 50, 0, 9, 0, 0, 0, 0]
      32768 false = .error ReadErr.overflow := by decide
  exact ⟨heq, fun msg hc => by rw [heq] at hc; exact absurd hc (by simp)⟩

/-- C1: evaluating the modelled `Fst::find` on `fstAB` at path `"a/b"`.
The first segment `"a"` matches the directory at index 1 whose `length`
(subtree end index) is 3, and a segment remains, so per the claim the
remaining segments may only match nodes at indices strictly below 3 and
the search must return `None` once the scan index reaches 3. The code
instead computes the stop bound as `node.length + (idx + 1) = 5` and goes
on to return the node at index 3 (directory `"b"`, which lies outside
`"a"`'s subtree). -/
theorem C1_find_escapes_subtree :
    Fst.find shiftJisDecode fstAB 100 ['a', '/', 'b']
        = some (some (3, { kind := 1, name_offset := 4, offset := 0, length := 5 })) ∧
    (fstAB.nodes.getD 1 default).length = 3 ∧
    3 ≤ (fstAB.nodes.getD 1 default).length := by
  decide

/-! ## Lemmas for the NKit reader -/

lemma readBytes_ok {n : Nat} {s v s' : List Nat}
    (h : readBytes n s = .ok (v, s')) :
    v = s.take n ∧ s' = s.drop n ∧ v.length = n := by
  unfold readBytes at h
  split at h
  · cases h
    refine ⟨rfl, rfl, ?_⟩
    simp only [List.length_take]
    omega
  · cases h

lemma readJunkBits_ok {bs : Nat} {s : List Nat} {jb : Option (List Nat)}
    {s' : List Nat} (h : readJunkBits true bs s = .ok (jb, s')) :
    ∃ v, jb = some v ∧ v.length = divCeil (divCeil DL_DVD_SIZE bs) 8 := by
  simp only [readJunkBits] at h
  split at h
  · cases h
  · rcases hr : readBytes (divCeil (divCeil DL_DVD_SIZE bs) 8) s with e | ⟨v, t⟩ <;>
      simp only [hr] at h
    · cases h
    · cases h
      exact ⟨v, rfl, (readBytes_ok hr).2.2⟩

/-- Inverting a successful `NKitHeader::read_from` with `has_junk_bits`:
the junk bitmap is present with the computed length. -/
lemma read_from_junk_bitmap {stream : List Nat} {bs : Nat} {h : NKitHeader}
    (hok : NKitHeader.read_from stream bs true = .ok h) :
    ∃ v, h.junk_bits = some v ∧
      v.length = divCeil (divCeil DL_DVD_SIZE bs) 8 := by
  unfold NKitHeader.read_from at hok
  simp only [bind, Except.bind, pure, Except.pure] at hok
  rcases h1 : readVersion stream with e | ⟨version, s1⟩ <;> simp only [h1] at hok
  · cases hok
  rcases h2 : readHeaderSize version s1 with e | ⟨hsz, s2⟩ <;> simp only [h2] at hok
  · cases hok
  rcases h3 : remainingHeaderSize version hsz with e | rem <;> simp only [h3] at hok
  · cases hok
  rcases h4 : readBytes rem s2 with e | ⟨hb, s3⟩ <;> simp only [h4] at hok
  · cases hok
  rcases h5 : parseInner version hb with e | ⟨flags, size, crc32, md5, sha1, xxh⟩ <;>
    simp only [h5] at hok
  · cases hok
  rcases h6 : readJunkBits true bs s3 with e | ⟨jb, s4⟩ <;> simp only [h6] at hok
  · cases hok
  obtain ⟨v, hv, hlen⟩ := readJunkBits_ok h6
  have hrec : h.junk_bits = jb := by
    cases hok
    rfl
  exact ⟨v, by rw [hrec, hv], hlen⟩

lemma land_shiftLeft_bne (x k : Nat) : (x &&& (1 <<< k) != 0) = x.testBit k := by
  rw [Nat.shiftLeft_eq, one_mul, Nat.and_two_pow]
  rcases hx : x.testBit k <;> simp [hx]

/-- C5: when the container declares junk bits, a successfully parsed
header carries a bitmap of exactly `ceil(ceil(DL_DVD_SIZE / block_size) / 8)`
bytes; `is_junk_block b` is `some` of bit `7 - b % 8` of bitmap byte
`b / 8` when that byte exists, and `none` when the byte index is past the
bitmap's end or the bitmap is absent. -/
theorem C5_junk_bits (stream : List Nat) (block_size : Nat) (h : NKitHeader)
    (hok : NKitHeader.read_from stream block_size true = .ok h) :
    (∃ v, h.junk_bits = some v ∧
      v.length = divCeil (divCeil DL_DVD_SIZE block_size) 8 ∧
      ∀ b : Nat,
        (b / 8 < v.length →
          h.is_junk_block b = some ((v.getD (b / 8) 0).testBit (7 - b % 8))) ∧
        (v.length ≤ b / 8 → h.is_junk_block b = none)) ∧
    ∀ h' : NKitHeader, h'.junk_bits = none → ∀ b : Nat, h'.is_junk_block b = none := by
  obtain ⟨v, hv, hlen⟩ := read_from_junk_bitmap hok
  refine ⟨⟨v, hv, hlen, fun b => ⟨fun hlt => ?_, fun hge => ?_⟩⟩,
    fun h' hnone b => ?_⟩
  · unfold NKitHeader.is_junk_block
    rw [hv]
    have hget : v.get? (b / 8) = some (v.getD (b / 8) 0) := by
      simp [List.getD_eq_getElem?_getD, List.getElem?_eq_getElem hlt,
        List.get?_eq_getElem?]
    show ((v.get? (b / 8)).map fun x => x &&& (1 <<< (7 - b % 8)) != 0) = _
    rw [hget]
    simp only [land_shiftLeft_bne]
    rfl
  · unfold NKitHeader.is_junk_block
    rw [hv]
    have hget : v.get? (b / 8) = none := by
      rw [List.get?_eq_getElem?]
      exact List.getElem?_eq_none hge
    show ((v.get? (b / 8)).map fun x => x &&& (1 <<< (7 - b % 8)) != 0) = _
    rw [hget]
    rfl
  · unfold NKitHeader.is_junk_block
    rw [hnone]
    rfl

lemma cons8_of_length (s : List Nat) (h : 8 ≤ s.length) :
    ∃ a b c d e f g x t, s = a :: b :: c :: d :: e :: f :: g :: x :: t := by
  match s, h with
  | a :: b :: c :: d :: e :: f :: g :: x :: t, _ =>
    exact ⟨a, b, c, d, e, f, g, x, t, rfl⟩
  | [], h | [_], h | [_, _], h | [_, _, _], h | [_, _, _, _], h
  | [_, _, _, _, _], h | [_, _, _, _, _, _], h | [_, _, _, _, _, _, _], h =>
    simp at h

lemma readHeaderSize_unsupported (v : Nat) (s : List Nat) (h1 : v ≠ 1)
    (h2 : v ≠ 2) : ∃ msg, readHeaderSize v s = .error (.ioError msg) := by
  match v, h1, h2 with
  | 0, _, _ => exact ⟨_, rfl⟩
  | 1, h1, _ => exact absurd rfl h1
  | 2, _, h2 => exact absurd rfl h2
  | (n + 3), _, _ => exact ⟨_, rfl⟩

/-- C9: whenever the first 8 bytes of the stream are not the ASCII magic
`"NKIT  v"` followed by `'1'` or `'2'`, `NKitHeader::read_from` returns an
`io::Error` to the caller (truncated streams and bad magic fail the
version-string check, digits `'3'..='9'` fail the unsupported-version
check); it is never a success and never a panic. -/
theorem C9_bad_magic_io_error (stream : List Nat) (block_size : Nat)
    (has_junk_bits : Bool)
    (h1 : stream.take 8 ≠ VERSION_MAGIC ++ [49])
    (h2 : stream.take 8 ≠ VERSION_MAGIC ++ [50]) :
    ∃ msg, NKitHeader.read_from stream block_size has_junk_bits
      = .error (.ioError msg) := by
  unfold NKitHeader.read_from
  simp only [bind, Except.bind, pure, Except.pure]
  by_cases hlen : 8 ≤ stream.length
  case neg =>
    have hv : readVersion stream = .error (.ioError ("unexpected EOF")) := by
      unfold readVersion readBytes
      rw [if_neg hlen]
    rw [hv]
    exact ⟨_, rfl⟩
  case pos =>
    obtain ⟨a, b, c, d, e, f, g, x, t, rfl⟩ := cons8_of_length stream hlen
    have hrb : readBytes 8 (a :: b :: c :: d :: e :: f :: g :: x :: t)
        = .ok ([a, b, c, d, e, f, g, x], t) := by
      unfold readBytes
      rw [if_pos (by simp)]
      rfl
    by_cases hmagic : [a, b, c, d, e, f, g] = VERSION_MAGIC ∧ 49 ≤ x ∧ x ≤ 57
    case neg =>
      have hv : readVersion (a :: b :: c :: d :: e :: f :: g :: x :: t)
          = .error (.ioError ("Invalid NKit header version string")) := by
        unfold readVersion
        rw [hrb]
        exact if_neg hmagic
      rw [hv]
      exact ⟨_, rfl⟩
    case pos =>
      have hv : readVersion (a :: b :: c :: d :: e :: f :: g :: x :: t)
          = .ok (x - 48, t) := by
        unfold readVersion
        rw [hrb]
        exact if_pos hmagic
      obtain ⟨hm, hx1, hx2⟩ := hmagic
      simp only [VERSION_MAGIC, List.cons.injEq, and_true] at hm
      obtain ⟨ha2, hb2, hc2, hd2, he2, hf2, hg2⟩ := hm
      subst ha2 hb2 hc2 hd2 he2 hf2 hg2
      simp only [VERSION_MAGIC] at h1 h2
      have hx49 : x ≠ 49 := by
        intro hx
        exact h1 (by rw [hx]; rfl)
      have hx50 : x ≠ 50 := by
        intro hx
        exact h2 (by rw [hx]; rfl)
      obtain ⟨msg, herr⟩ :=
        readHeaderSize_unsupported (x - 48) t (by omega) (by omega)
      rw [hv]
      simp only [herr]
      exact ⟨msg, rfl⟩

/-- Witness for C9 at the concrete stream `"NKIT  v0"` (version digit
outside `'1'..='9'`). -/
theorem C9_witness :
    ([78, 75, 73, 84, 32, 32, 118, 48] : List Nat).take 8
        ≠ VERSION_MAGIC ++ [49] ∧
    ([78, 75, 73, 84, 32, 32, 118, 48] : List Nat).take 8
        ≠ VERSION_MAGIC ++ [50] ∧
    ∃ msg, NKitHeader.read_from [78, 75, 73, 84, 32, 32, 118, 48] 32768 false
      = .error (.ioError msg) :=
  ⟨by decide, by decide,
    C9_bad_magic_io_error [78, 75, 73, 84, 32, 32, 118, 48] 32768 false
      (by decide) (by decide)⟩

set_option maxRecDepth 4000 in
/-- The modelled Shift-JIS decoder maps NUL-free byte sequences to NUL-free
character sequences (true of the real decoder: only byte `0x00` decodes to
U+0000; errors produce U+FFFD). -/
lemma shiftJisDecode_no_nul : ∀ bs : List Nat, (∀ x ∈ bs, x ≠ 0) →
    ∀ c ∈ (shiftJisDecode bs).1, c ≠ Char.ofNat 0 := by
  intro bs
  induction bs with
  | nil =>
    intro _ c hc
    simp [shiftJisDecode] at hc
  | cons b rest ih =>
    intro hnz c hc
    have hb : b ≠ 0 := hnz b (by simp)
    have hrest := ih fun x hx => hnz x (by simp [hx])
    rcases hsd : shiftJisDecode rest with ⟨cs, er⟩
    rw [hsd] at hrest
    simp only [shiftJisDecode, hsd] at hc
    by_cases h1 : b ≤ 128
    · rw [if_pos h1] at hc
      rcases List.mem_cons.mp hc with hc0 | hcs
    /- head character: `Char.ofNat b` with `1 ≤ b ≤ 128` is never U+0000 -/
      · subst hc0
        have hb1 : 1 ≤ b := Nat.pos_of_ne_zero hb
        interval_cases b <;> decide
      · exact hrest c hcs
    · rw [if_neg h1] at hc
      by_cases h2 : 161 ≤ b ∧ b ≤ 223
      · rw [if_pos h2] at hc
        rcases List.mem_cons.mp hc with hc0 | hcs
        · subst hc0
          obtain ⟨h2a, h2b⟩ := h2
          interval_cases b <;> decide
        · exact hrest c hcs
      · rw [if_neg h2] at hc
        rcases List.mem_cons.mp hc with hc0 | hcs
        · subst hc0
          decide
        · exact hrest c hcs

/-- C6: `Fst::get_name` succeeds exactly when the name offset is within the
string table, a NUL terminator follows, and the decoder reports no error;
on success it returns the decoding of the bytes from the offset up to (and
excluding) the first NUL, and (for any decoder that maps NUL-free bytes to
NUL-free text, as Shift-JIS does) the returned string has no interior NUL
character. -/
theorem C6_get_name_spec (decode : List Nat → List Char × Bool) (fst : Fst)
    (node : Node)
    (hdec : ∀ bs : List Nat, (∀ x ∈ bs, x ≠ 0) →
      ∀ c ∈ (decode bs).1, c ≠ Char.ofNat 0) :
    ((∃ s, Fst.get_name decode fst node = .ok s) ↔
      (node.name_offset ≤ fst.string_table.length ∧
        0 ∈ fst.string_table.drop node.name_offset ∧
        (decode ((fst.string_table.drop node.name_offset).takeWhile
          (fun b => b != 0))).2 = false)) ∧
    ∀ s, Fst.get_name decode fst node = .ok s →
      s = (decode ((fst.string_table.drop node.name_offset).takeWhile
            (fun b => b != 0))).1 ∧
      ∀ c ∈ s, c ≠ Char.ofNat 0 := by
  by_cases hoff : node.name_offset ≤ fst.string_table.length
  · by_cases hmem : 0 ∈ fst.string_table.drop node.name_offset
    · rcases hdb : decode ((fst.string_table.drop node.name_offset).takeWhile
        (fun b => b != 0)) with ⟨decoded, errors⟩
      have hgn : Fst.get_name decode fst node =
          if errors = true then
            .error ("FST: Failed to decode name at offset "
              ++ toString node.name_offset)
          else .ok decoded := by
        unfold Fst.get_name bytesUntilNul
        rw [if_pos hoff, if_pos hmem]
        simp only [hdb]
      rcases errors with _ | _
      · have hgn' : Fst.get_name decode fst node = .ok decoded := by
          rw [hgn]
          simp
        refine ⟨?_, ?_⟩
        · constructor
          · intro _
            exact ⟨hoff, hmem, rfl⟩
          · intro _
            exact ⟨decoded, hgn'⟩
        · intro s hs
          rw [hgn'] at hs
          cases hs
          have hnz : ∀ x ∈ (fst.string_table.drop node.name_offset).takeWhile
              (fun b => b != 0), x ≠ 0 := by
            intro x hx
            have := List.mem_takeWhile_imp hx
            simpa using this
          have hno := hdec _ hnz
          rw [hdb] at hno
          exact ⟨rfl, hno⟩
      · have hgn' : Fst.get_name decode fst node
            = .error ("FST: Failed to decode name at offset "
              ++ toString node.name_offset) := by
          rw [hgn]
          simp
        refine ⟨?_, ?_⟩
        · rw [hgn']
          constructor
          · rintro ⟨s, hs⟩
            cases hs
          · rintro ⟨-, -, hfalse⟩
            simp at hfalse
        · intro s hs
          rw [hgn'] at hs
          cases hs
    · have hgn : Fst.get_name decode fst node =
          .error ("FST: name at offset " ++ toString node.name_offset
            ++ " not null-terminated") := by
        unfold Fst.get_name bytesUntilNul
        rw [if_pos hoff, if_neg hmem]
      refine ⟨?_, ?_⟩
      · rw [hgn]
        constructor
        · rintro ⟨s, hs⟩
          cases hs
        · rintro ⟨_, hc, _⟩
          exact absurd hc hmem
      · intro s hs
        rw [hgn] at hs
        cases hs
  · have hgn : Fst.get_name decode fst node =
        .error ("FST: name offset " ++ toString node.name_offset
          ++ " out of bounds (string table size: "
          ++ toString fst.string_table.length ++ ")") := by
      unfold Fst.get_name
      rw [if_neg hoff]
    refine ⟨?_, ?_⟩
    · rw [hgn]
      constructor
      · rintro ⟨s, hs⟩
        cases hs
      · rintro ⟨hc, _, _⟩
        exact absurd hc hoff
    · intro s hs
      rw [hgn] at hs
      cases hs

/-- Witness for C6: the Shift-JIS decoder on an FST whose string table is
`"hi\0"` and a node with name offset 0. -/
theorem C6_witness :
    ((∃ s, Fst.get_name shiftJisDecode
        { nodes := [], string_table := [104, 105, 0] }
        { kind := 0, name_offset := 0, offset := 0, length := 0 } = .ok s) ↔
      (({ kind := 0, name_offset := 0, offset := 0, length := 0 } : Node).name_offset
          ≤ ({ nodes := [], string_table := [104, 105, 0] } : Fst).string_table.length ∧
        0 ∈ (({ nodes := [], string_table := [104, 105, 0] } : Fst).string_table.drop
          ({ kind := 0, name_offset := 0, offset := 0, length := 0 } : Node).name_offset) ∧
        (shiftJisDecode ((({ nodes := [], string_table := [104, 105, 0] } : Fst).string_table.drop
          ({ kind := 0, name_offset := 0, offset := 0, length := 0 } : Node).name_offset).takeWhile
          (fun b => b != 0))).2 = false)) ∧
    ∀ s, Fst.get_name shiftJisDecode
        { nodes := [], string_table := [104, 105, 0] }
        { kind := 0, name_offset := 0, offset := 0, length := 0 } = .ok s →
      s = (shiftJisDecode ((({ nodes := [], string_table := [104, 105, 0] } : Fst).string_table.drop
            ({ kind := 0, name_offset := 0, offset := 0, length := 0 } : Node).name_offset).takeWhile
            (fun b => b != 0))).1 ∧
      ∀ c ∈ s, c ≠ Char.ofNat 0 :=
  C6_get_name_spec shiftJisDecode
    { nodes := [], string_table := [104, 105, 0] }
    { kind := 0, name_offset := 0, offset := 0, length := 0 }
    shiftJisDecode_no_nul

/-- The header parsed from `nkitStreamEmptyV2 ++ [0x80]` with junk bits at
block size `2^32 - 1`: a one-byte junk bitmap `[0x80]`. -/
def nkitHeaderJunk1 : NKitHeader :=
  { version := 2, flags := 0, size := none, crc32 := none, md5 := none,
    sha1 := none, xxhash64 := none, junk_bits := some [128],
    block_size := 4294967295 }

/-- Witness for C5: a version-2 stream with junk bits at block size
`2^32 - 1` (bitmap length 1), bitmap byte `0x80`. -/
theorem C5_witness :
    NKitHeader.read_from (nkitStreamEmptyV2 ++ [128]) 4294967295 true
        = .ok nkitHeaderJunk1 ∧
    ((∃ v, nkitHeaderJunk1.junk_bits = some v ∧
      v.length = divCeil (divCeil DL_DVD_SIZE 4294967295) 8 ∧
      ∀ b : Nat,
        (b / 8 < v.length →
          nkitHeaderJunk1.is_junk_block b
            = some ((v.getD (b / 8) 0).testBit (7 - b % 8))) ∧
        (v.length ≤ b / 8 → nkitHeaderJunk1.is_junk_block b = none)) ∧
    ∀ h' : NKitHeader, h'.junk_bits = none → ∀ b : Nat,
      h'.is_junk_block b = none) :=
  ⟨by decide,
    C5_junk_bits (nkitStreamEmptyV2 ++ [128]) 4294967295 nkitHeaderJunk1
      (by decide)⟩

/-! ## Lemmas for the FST iterator -/

lemma parseNodesN_length (k : Nat) : ∀ l : List Nat, (parseNodesN k l).length = k := by
  induction k with
  | zero => intro l; rfl
  | succ n ih => intro l; simp [parseNodesN, ih]

lemma iterFromFuel_length (decode : List Nat → List Char × Bool) (fst : Fst) :
    ∀ fuel idx, (iterFromFuel decode fst fuel idx).length
      = min fuel (fst.nodes.length - idx) := by
  intro fuel
  induction fuel with
  | zero => intro idx; simp [iterFromFuel]
  | succ n ih =>
    intro idx
    simp only [iterFromFuel]
    rcases hg : fst.nodes.get? idx with _ | node
    · have hge : fst.nodes.length ≤ idx := by
        rw [List.get?_eq_getElem?] at hg
        by_contra hlt
        simp [List.getElem?_eq_getElem (Nat.lt_of_not_le hlt)] at hg
      simp only [List.length_nil]
      omega
    · have hlt : idx < fst.nodes.length := by
        rw [List.get?_eq_getElem?] at hg
        by_contra hge
        simp [List.getElem?_eq_none (Nat.le_of_not_lt hge)] at hg
      simp only [List.length_cons, ih]
      omega

lemma iterFromFuel_get? (decode : List Nat → List Char × Bool) (fst : Fst) :
    ∀ fuel idx i, (iterFromFuel decode fst fuel idx).get? i =
      if i < fuel ∧ idx + i < fst.nodes.length then
        some (idx + i, fst.nodes.getD (idx + i) default,
          Fst.get_name decode fst (fst.nodes.getD (idx + i) default))
      else none := by
  intro fuel
  induction fuel with
  | zero =>
    intro idx i
    rw [if_neg (by omega)]
    rfl
  | succ n ih =>
    intro idx i
    simp only [iterFromFuel]
    rcases hg : fst.nodes.get? idx with _ | node
    · have hge : fst.nodes.length ≤ idx := by
        rw [List.get?_eq_getElem?] at hg
        by_contra hlt
        simp [List.getElem?_eq_getElem (Nat.lt_of_not_le hlt)] at hg
      rw [if_neg (by omega)]
      rfl
    · have hlt : idx < fst.nodes.length := by
        rw [List.get?_eq_getElem?] at hg
        by_contra hge2
        simp [List.getElem?_eq_none (Nat.le_of_not_lt hge2)] at hg
      have hnode : node = fst.nodes.getD idx default := by
        rw [List.getD_eq_getElem?_getD, ← List.get?_eq_getElem?, hg]
        rfl
      rcases i with _ | j
      · rw [if_pos (by omega)]
        simp only [List.get?_cons_zero, Nat.add_zero, hnode]
      · simp only [List.get?_cons_succ, ih]
        have harith : idx + 1 + j = idx + (j + 1) := by omega
        rw [harith]
        exact if_congr (by omega) rfl rfl

/-- C8: for an FST built by `Fst::new` whose root node's `length` field is
`N`, the node list has exactly `N` entries and `Fst::iter` yields exactly
`N - 1` items; the `i`-th item (counting from 0) is the triple
`(i + 1, node, get_name node)` for the node at index `i + 1`, so the root
at index 0 is skipped, indices increase strictly, and a name-decoding
failure is carried inside the triple (the item exists whether or not
`get_name` succeeded). -/
theorem C8_iter_items (decode : List Nat → List Char × Bool) (buf : List Nat)
    (fst : Fst) (N : Nat)
    (hok : Fst.new buf = .ok fst)
    (hN : (parseNode (buf.take 12)).length = N) :
    fst.nodes.length = N ∧
    (Fst.iterItems decode fst).length = N - 1 ∧
    ∀ i : Nat, (Fst.iterItems decode fst).get? i =
      if i + 1 < N then
        some (i + 1, fst.nodes.getD (i + 1) default,
          Fst.get_name decode fst (fst.nodes.getD (i + 1) default))
      else none := by
  have hlen : fst.nodes.length = N := by
    unfold Fst.new at hok
    split at hok
    · cases hok
    · split at hok
      · cases hok
      · cases hok
        simpa [parseNodesN_length] using hN
  refine ⟨hlen, ?_, ?_⟩
  · unfold Fst.iterItems
    rw [iterFromFuel_length, hlen]
    omega
  · intro i
    unfold Fst.iterItems
    rw [iterFromFuel_get?, hlen]
    have harith : 1 + i = i + 1 := by omega
    rw [harith]
    exact if_congr (by omega) rfl rfl

/-- A 26-byte FST buffer: root directory with `length = 2`, one file node,
and the string table `"a\0"`. -/
def fstSmallBuf : List Nat :=
  [1, 0, 0, 0, 0, 0, 0, 0, 0, 0, 0, 2]
    ++ [0, 0, 0, 0, 0, 0, 0, 5, 0, 0, 0, 7] ++ [97, 0]

/-- The FST that `Fst.new fstSmallBuf` produces. -/
def fstSmall : Fst :=
  { nodes := [
      { kind := 1, name_offset := 0, offset := 0, length := 2 },
      { kind := 0, name_offset := 0, offset := 5, length := 7 }],
    string_table := [97, 0] }

/-- Witness for C8 at the concrete buffer `fstSmallBuf` (root length 2,
one yielded item). -/
theorem C8_witness :
    Fst.new fstSmallBuf = .ok fstSmall ∧
    (parseNode (fstSmallBuf.take 12)).length = 2 ∧
    (fstSmall.nodes.length = 2 ∧
     (Fst.iterItems shiftJisDecode fstSmall).length = 2 - 1 ∧
     ∀ i : Nat, (Fst.iterItems shiftJisDecode fstSmall).get? i =
       if i + 1 < 2 then
         some (i + 1, fstSmall.nodes.getD (i + 1) default,
           Fst.get_name shiftJisDecode fstSmall
             (fstSmall.nodes.getD (i + 1) default))
       else none) :=
  ⟨by decide, by decide,
    C8_iter_items shiftJisDecode fstSmallBuf fstSmall 2 (by decide) (by decide)⟩

end Nod
